import Mathlib

/-!
Verification development for the CUDA layer-normalization kernels in
`aten/src/ATen/native/cuda/layer_norm_kernel.cu`.

The kernels are embedded shallowly, in exact arithmetic: the storage and
accumulator floating types are both modelled by `ℚ` (casts between `T` and
`T_ACC` become the identity), and the only irrational operation, the final
`rsqrt`, is modelled over `ℝ`.  Each per-row kernel is modelled as a
single-lane execution of its grid-stride loop: the lane loop visits every
column in order, and the external group reduction
(`cuda_utils::BlockReduceSum` / `BlockReduceMoments`, outside this
repository's sources) then combines a single partial, i.e. is the identity.
Flat buffers are functions `ℕ → ℚ` (or `ℕ → ℝ`), indexed exactly as the
device code indexes them (`i * N + j`); a kernel that writes a buffer is
modelled as the function update that performs exactly the writes the grid
performs, leaving every other index at the buffer's previous contents.
-/

namespace LayerNormCUDA

/-- Thread-count constant from the source (`kCUDANumThreads = 256`). -/
def kCUDANumThreads : ℕ := 256

/-- Tile-size constant from the source (`kColwiseReduceTileSize = 32`). -/
def kColwiseReduceTileSize : ℕ := 32

/-! ### RowwiseMomentsCUDAKernel: the streaming (Welford) moment pass -/

/-- Running moment triple `(m0, m1, m2)` held by a lane of
`RowwiseMomentsCUDAKernel`: sample count, running mean, running sum of
squared deviations. -/
structure Moments where
  m0 : ℕ
  m1 : ℚ
  m2 : ℚ
deriving Repr, DecidableEq

/-- One iteration of the sample loop in `RowwiseMomentsCUDAKernel`:
`delta = X[index] - m1; ++m0; m1 += delta / m0; m2 += delta * (X[index] - m1)`. -/
def welfordStep (s : Moments) (x : ℚ) : Moments :=
  let m0' : ℕ := s.m0 + 1
  let delta : ℚ := x - s.m1
  let m1' : ℚ := s.m1 + delta / (m0' : ℚ)
  { m0 := m0', m1 := m1', m2 := s.m2 + delta * (x - m1') }

/-- The whole sample loop of one lane, started from `(0, 0, 0)` as in the
kernel. -/
def welfordFold (xs : List ℚ) : Moments :=
  xs.foldl welfordStep ⟨0, 0, 0⟩

/-- The list of values `X[i*N + j]`, `j = 0, …, N-1`, that the (single-lane)
moment loop for row `i` visits, in visit order. -/
def rowVals (N : ℕ) (X : ℕ → ℚ) (i : ℕ) : List ℚ :=
  (List.range N).map fun j => X (i * N + j)

/-- Mean written by `RowwiseMomentsCUDAKernel` for row `i` (the `m1`
component after the reduction). -/
def rowMean (N : ℕ) (X : ℕ → ℚ) (i : ℕ) : ℚ :=
  (welfordFold (rowVals N X i)).m1

/-- Squared-deviation accumulator of `RowwiseMomentsCUDAKernel` for row `i`
(the `m2` component after the reduction). -/
def rowM2 (N : ℕ) (X : ℕ → ℚ) (i : ℕ) : ℚ :=
  (welfordFold (rowVals N X i)).m2

/-- The clamped variance `max(m2 / N, 0)` computed by lane 0 of
`RowwiseMomentsCUDAKernel` before adding `eps` (`c10::cuda::compat::max`). -/
def rowVar (N : ℕ) (X : ℕ → ℚ) (i : ℕ) : ℚ :=
  max (rowM2 N X i / (N : ℚ)) 0

/-- Modelled from the spec: the external `c10::cuda::compat::rsqrt`
intrinsic (not under this repository's sources), the reciprocal square
root `1 / sqrt x`. -/
noncomputable def rsqrtQ (x : ℚ) : ℝ :=
  (Real.sqrt (x : ℝ))⁻¹

/-- Reciprocal standard deviation written by `RowwiseMomentsCUDAKernel`
for row `i`: `rsqrt(max(m2 / N, 0) + eps)`. -/
noncomputable def rowRstd (N : ℕ) (eps : ℚ) (X : ℕ → ℚ) (i : ℕ) : ℝ :=
  rsqrtQ (rowVar N X i + eps)

/-! ### Welford correctness lemmas -/

/-- Sum of squared deviations of a list from a center `c`. -/
def sqDevSum (xs : List ℚ) (c : ℚ) : ℚ :=
  (xs.map fun y => (y - c) ^ 2).sum

/-! ### LayerNormForwardCUDAKernel -/

/-- Value read for `gamma[j]`: `gamma == nullptr ? 1 : gamma[j]`. -/
def scaleAt (gamma : Option (ℕ → ℚ)) (j : ℕ) : ℚ :=
  match gamma with
  | none => 1
  | some g => g j

/-- Value read for `beta[j]`: `beta == nullptr ? 0 : beta[j]`. -/
def shiftAt (beta : Option (ℕ → ℚ)) (j : ℕ) : ℚ :=
  match beta with
  | none => 0
  | some b => b j

/-- The `Y` buffer after `LayerNormForwardCUDAKernel` ran on a grid of `M`
blocks: index `i*N + j` (for `i < M`, `j < N`) holds
`(X[i*N+j] - mean[i]) * rstd[i] * gamma_v + beta_v`; every other index
keeps the previous contents `Y0`. -/
def LayerNormForwardCUDAKernel (M N : ℕ) (X mean rstd : ℕ → ℚ)
    (gamma beta : Option (ℕ → ℚ)) (Y0 : ℕ → ℚ) : ℕ → ℚ :=
  fun t =>
    if t < M * N then
      (X t - mean (t / N)) * rstd (t / N) * scaleAt gamma (t % N) +
        shiftAt beta (t % N)
    else Y0 t

/-! ### ComputeInternalGradientsCUDAKernel -/

/-- The (single-lane) accumulation loop of `ComputeInternalGradientsCUDAKernel`
for row `i`: running pair `(sum1, sum2)` with
`sum1 += dY[index] * X[index] * gamma_v` and `sum2 += dY[index] * gamma_v`. -/
def internalGradsLoop (N : ℕ) (dY X : ℕ → ℚ) (gamma : Option (ℕ → ℚ))
    (i : ℕ) : ℚ × ℚ :=
  (List.range N).foldl
    (fun s j =>
      (s.1 + dY (i * N + j) * X (i * N + j) * scaleAt gamma j,
       s.2 + dY (i * N + j) * scaleAt gamma j))
    (0, 0)

/-- The `ds` buffer after `ComputeInternalGradientsCUDAKernel` ran on a grid
of `M` blocks (lane 0 of block `i` writes `ds[i] = sum1`). -/
def ComputeInternalGradients_ds (M N : ℕ) (dY X : ℕ → ℚ)
    (gamma : Option (ℕ → ℚ)) (ds0 : ℕ → ℚ) : ℕ → ℚ :=
  fun i => if i < M then (internalGradsLoop N dY X gamma i).1 else ds0 i

/-- The `db` buffer after `ComputeInternalGradientsCUDAKernel` ran on a grid
of `M` blocks (lane 0 of block `i` writes `db[i] = sum2`). -/
def ComputeInternalGradients_db (M N : ℕ) (dY X : ℕ → ℚ)
    (gamma : Option (ℕ → ℚ)) (db0 : ℕ → ℚ) : ℕ → ℚ :=
  fun i => if i < M then (internalGradsLoop N dY X gamma i).2 else db0 i

/-! ### ComputeGradientFusedParamsCUDAKernel and LayerNormBackwardCUDAKenrel -/

/-- The `(c1, c2)` pair computed by `ComputeGradientFusedParamsCUDAKernel`
for a row `index`:
`s = 1/N; a = (db*mean - ds) * rstd * rstd * rstd * s; c1 = a;
c2 = -(a*mean + db*rstd*s)`. -/
def fusedParams (N : ℕ) (mean rstd ds db : ℕ → ℚ) (index : ℕ) : ℚ × ℚ :=
  let s : ℚ := 1 / (N : ℚ)
  let a : ℚ := (db index * mean index - ds index) * rstd index * rstd index *
    rstd index * s
  (a, -(a * mean index + db index * rstd index * s))

/-- The `c1` buffer after `ComputeGradientFusedParamsCUDAKernel` ran (the
kernel guards every write with `index < M`). -/
def ComputeGradientFusedParams_c1 (M N : ℕ) (mean rstd ds db : ℕ → ℚ)
    (c10 : ℕ → ℚ) : ℕ → ℚ :=
  fun index => if index < M then (fusedParams N mean rstd ds db index).1
    else c10 index

/-- The `c2` buffer after `ComputeGradientFusedParamsCUDAKernel` ran. -/
def ComputeGradientFusedParams_c2 (M N : ℕ) (mean rstd ds db : ℕ → ℚ)
    (c20 : ℕ → ℚ) : ℕ → ℚ :=
  fun index => if index < M then (fusedParams N mean rstd ds db index).2
    else c20 index

/-- The `dX` buffer after `LayerNormBackwardCUDAKenrel` ran on a grid of `M`
blocks: `dX[index] = a[i] * dY[index] * gamma_v + b[i] * X[index] + c[i]`. -/
def LayerNormBackwardCUDAKenrel (M N : ℕ) (dY X : ℕ → ℚ)
    (gamma : Option (ℕ → ℚ)) (a b c : ℕ → ℚ) (dX0 : ℕ → ℚ) : ℕ → ℚ :=
  fun t =>
    if t < M * N then
      a (t / N) * dY t * scaleAt gamma (t % N) + b (t / N) * X t + c (t / N)
    else dX0 t

/-- The input-gradient chain of `LayerNormBackwardKernelImplInternal` when
`dX` is requested: `ComputeInternalGradientsCUDAKernel`, then
`ComputeGradientFusedParamsCUDAKernel`, then `LayerNormBackwardCUDAKenrel`
called with `a := rstd`, `b := scale` (the `c1` buffer), `c := bias` (the
`c2` buffer).  The freshly allocated intermediate buffers are modelled as
zero-initialized; only their first `M` entries are ever read. -/
def backwardDXChain (M N : ℕ) (dY X mean rstd : ℕ → ℚ)
    (gamma : Option (ℕ → ℚ)) (dX0 : ℕ → ℚ) : ℕ → ℚ :=
  let ds := ComputeInternalGradients_ds M N dY X gamma (fun _ => 0)
  let db := ComputeInternalGradients_db M N dY X gamma (fun _ => 0)
  let c1 := ComputeGradientFusedParams_c1 M N mean rstd ds db (fun _ => 0)
  let c2 := ComputeGradientFusedParams_c2 M N mean rstd ds db (fun _ => 0)
  LayerNormBackwardCUDAKenrel M N dY X gamma rstd c1 c2 dX0

/-! ### GammaBetaBackwardSimpleCUDAKernel -/

/-- The serial column loop of `GammaBetaBackwardSimpleCUDAKernel` for column
`j`: running pair `(sum1, sum2)` over all rows `i < M`, each contribution
replaced by `0` when the corresponding output buffer is absent
(`dg == nullptr ? 0 : …`, `db == nullptr ? 0 : …`). -/
def gammaBetaSimpleLoop (M N : ℕ) (dY X mean rstd : ℕ → ℚ)
    (wantDg wantDb : Bool) (j : ℕ) : ℚ × ℚ :=
  (List.range M).foldl
    (fun s i =>
      (s.1 + (if wantDg = true then
          dY (i * N + j) * (X (i * N + j) - mean i) * rstd i else 0),
       s.2 + (if wantDb = true then dY (i * N + j) else 0)))
    (0, 0)

/-- The `(dg, db)` buffers after `GammaBetaBackwardSimpleCUDAKernel` ran:
every lane with `j < N` writes `dg[j] = sum1` (when `dg` is present) and
`db[j] = sum2` (when `db` is present). -/
def GammaBetaBackwardSimpleCUDAKernel (M N : ℕ) (dY X mean rstd : ℕ → ℚ)
    (wantDg wantDb : Bool) (dg0 db0 : ℕ → ℚ) : (ℕ → ℚ) × (ℕ → ℚ) :=
  (fun j => if wantDg = true ∧ j < N then
      (gammaBetaSimpleLoop M N dY X mean rstd wantDg wantDb j).1 else dg0 j,
   fun j => if wantDb = true ∧ j < N then
      (gammaBetaSimpleLoop M N dY X mean rstd wantDg wantDb j).2 else db0 j)

/-! ### GammaBetaBackwardCUDAKernel (tiled path) -/

/-- Number of iterations of the row loop
`for (i = s; i < M; i += 32)` of a tiled lane with `threadIdx.y = s`
(the stride is `blockDim.y * 2 = 32`). -/
def stripeIters (s M : ℕ) : ℕ := (M - s + 31) / 32

/-- The four per-lane accumulators of `GammaBetaBackwardCUDAKernel`. -/
structure TileAcc where
  dg1 : ℚ
  dg2 : ℚ
  db1 : ℚ
  db2 : ℚ
deriving Repr, DecidableEq

/-- The row loop of one tiled lane (`threadIdx.y = s`, column `j`): iteration
`k` visits `i1 = s + 32k`, accumulating into `dg_sum1`/`db_sum1`, and
`i2 = i1 + 16`, accumulating into `dg_sum2`/`db_sum2` under the guard
`i2 < M`. -/
def tiledLaneLoop (M N : ℕ) (dY X mean rstd : ℕ → ℚ)
    (wantDg wantDb : Bool) (j s : ℕ) : TileAcc :=
  (List.range (stripeIters s M)).foldl
    (fun t k =>
      ⟨t.dg1 + (if wantDg = true then
          dY ((s + 32 * k) * N + j) * (X ((s + 32 * k) * N + j) -
            mean (s + 32 * k)) * rstd (s + 32 * k) else 0),
       t.dg2 + (if s + 16 + 32 * k < M then
          (if wantDg = true then
            dY ((s + 16 + 32 * k) * N + j) * (X ((s + 16 + 32 * k) * N + j) -
              mean (s + 16 + 32 * k)) * rstd (s + 16 + 32 * k) else 0) else 0),
       t.db1 + (if wantDb = true then dY ((s + 32 * k) * N + j) else 0),
       t.db2 + (if s + 16 + 32 * k < M then
          (if wantDb = true then dY ((s + 16 + 32 * k) * N + j) else 0) else 0)⟩)
    ⟨0, 0, 0, 0⟩

/-- The transposed warp reduction of `GammaBetaBackwardCUDAKernel` for an
output column `j`: the sum of the 32 shared-memory slots
`g_shared[tx][j % 32]` (respectively `b_shared`), i.e. the `dg_sum1`
accumulators of the 16 lane rows followed by their `dg_sum2` accumulators. -/
def tiledColSums (M N : ℕ) (dY X mean rstd : ℕ → ℚ)
    (wantDg wantDb : Bool) (j : ℕ) : ℚ × ℚ :=
  (∑ s ∈ Finset.range 16, (tiledLaneLoop M N dY X mean rstd wantDg wantDb j s).dg1 +
     ∑ s ∈ Finset.range 16, (tiledLaneLoop M N dY X mean rstd wantDg wantDb j s).dg2,
   ∑ s ∈ Finset.range 16, (tiledLaneLoop M N dY X mean rstd wantDg wantDb j s).db1 +
     ∑ s ∈ Finset.range 16, (tiledLaneLoop M N dY X mean rstd wantDg wantDb j s).db2)

/-- The `(dg, db)` buffers after `GammaBetaBackwardCUDAKernel` ran: each
output column `j < N` receives the transposed block reduction of the lane
accumulators; writes are skipped for an absent buffer. -/
def GammaBetaBackwardCUDAKernel (M N : ℕ) (dY X mean rstd : ℕ → ℚ)
    (wantDg wantDb : Bool) (dg0 db0 : ℕ → ℚ) : (ℕ → ℚ) × (ℕ → ℚ) :=
  (fun j => if wantDg = true ∧ j < N then
      (tiledColSums M N dY X mean rstd wantDg wantDb j).1 else dg0 j,
   fun j => if wantDb = true ∧ j < N then
      (tiledColSums M N dY X mean rstd wantDg wantDb j).2 else db0 j)

/-- The parameter-gradient part of `LayerNormBackwardKernelImplInternal`:
`if (M < 512)` launch the simple kernel, else the tiled kernel. -/
def gammaBetaBackwardDispatch (M N : ℕ) (dY X mean rstd : ℕ → ℚ)
    (wantDg wantDb : Bool) (dg0 db0 : ℕ → ℚ) : (ℕ → ℚ) × (ℕ → ℚ) :=
  if M < 512 then
    GammaBetaBackwardSimpleCUDAKernel M N dY X mean rstd wantDg wantDb dg0 db0
  else
    GammaBetaBackwardCUDAKernel M N dY X mean rstd wantDg wantDb dg0 db0

/-! ### Entry points -/

/-- Shape check for an optional parameter buffer:
`!gamma.defined() || gamma.numel() == N`. -/
def optLenOk (o : Option (List ℚ)) (n : ℕ) : Bool :=
  match o with
  | none => true
  | some l => l.length == n

/-- Flat read of a list buffer, as `data_ptr` indexing. -/
def bufAt (l : List ℚ) : ℕ → ℚ := fun t => l.getD t 0

/-- Result of the forward entry point: a status flag and the contents of
the three output buffers after the call (`rstd`, and hence `Y`, is
real-valued because of the final `rsqrt`). -/
structure FwdResult where
  ok : Bool
  Y : ℕ → ℝ
  mean : ℕ → ℚ
  rstd : ℕ → ℝ

/-- The forward entry point `LayerNormKernelImplInternal`: the three
`TORCH_CHECK`s in source order, the `M == 0` early return, then
`RowwiseMomentsCUDAKernel` on a grid of `M` blocks followed by
`LayerNormForwardCUDAKernel` on a grid of `M` blocks (which reads the
`mean`/`rstd` buffers the moment kernel just wrote).  A failed check
leaves every output buffer at its initial contents. -/
noncomputable def LayerNormKernelImplInternal (X : List ℚ)
    (gamma beta : Option (List ℚ)) (M N : ℕ) (eps : ℚ)
    (Y0 : ℕ → ℝ) (mean0 : ℕ → ℚ) (rstd0 : ℕ → ℝ) : FwdResult :=
  if X.length ≠ M * N then ⟨false, Y0, mean0, rstd0⟩
  else if optLenOk gamma N ≠ true then ⟨false, Y0, mean0, rstd0⟩
  else if optLenOk beta N ≠ true then ⟨false, Y0, mean0, rstd0⟩
  else if M = 0 then ⟨true, Y0, mean0, rstd0⟩
  else
    let Xf := bufAt X
    let mean1 : ℕ → ℚ := fun i => if i < M then rowMean N Xf i else mean0 i
    let rstd1 : ℕ → ℝ := fun i => if i < M then rowRstd N eps Xf i else rstd0 i
    let Y1 : ℕ → ℝ := fun t =>
      if t < M * N then
        ((Xf t - mean1 (t / N) : ℚ) : ℝ) * rstd1 (t / N) *
          ((scaleAt (gamma.map bufAt) (t % N) : ℚ) : ℝ) +
          ((shiftAt (beta.map bufAt) (t % N) : ℚ) : ℝ)
      else Y0 t
    ⟨true, Y1, mean1, rstd1⟩

/-- Result of the backward entry point: a status flag and the contents of
the three (optional) gradient buffers after the call. -/
structure BwdResult where
  ok : Bool
  dX : ℕ → ℚ
  dgamma : ℕ → ℚ
  dbeta : ℕ → ℚ

/-- The backward entry point `LayerNormBackwardKernelImplInternal`: the
five `TORCH_CHECK`s in source order, the `M == 0` early return, then the
input-gradient chain when `dX` is requested, and the size-dispatched
parameter-gradient reduction when `dgamma` or `dbeta` is requested. -/
def LayerNormBackwardKernelImplInternal (dY X mean rstd : List ℚ)
    (gamma : Option (List ℚ)) (M N : ℕ) (wantDX wantDg wantDb : Bool)
    (dX0 dg0 db0 : ℕ → ℚ) : BwdResult :=
  if dY.length ≠ M * N then ⟨false, dX0, dg0, db0⟩
  else if X.length ≠ M * N then ⟨false, dX0, dg0, db0⟩
  else if mean.length ≠ M then ⟨false, dX0, dg0, db0⟩
  else if rstd.length ≠ M then ⟨false, dX0, dg0, db0⟩
  else if optLenOk gamma N ≠ true then ⟨false, dX0, dg0, db0⟩
  else if M = 0 then ⟨true, dX0, dg0, db0⟩
  else
    let dYf := bufAt dY
    let Xf := bufAt X
    let meanf := bufAt mean
    let rstdf := bufAt rstd
    let gf := gamma.map bufAt
    let dX1 := if wantDX = true then
        backwardDXChain M N dYf Xf meanf rstdf gf dX0
      else dX0
    let gb := if wantDg = true ∨ wantDb = true then
        gammaBetaBackwardDispatch M N dYf Xf meanf rstdf wantDg wantDb dg0 db0
      else (dg0, db0)
    ⟨true, dX1, gb.1, gb.2⟩

/-! ### Division instrumentation (for the unguarded `/ N`) -/

/-- Division with an explicit error branch: `none` when the divisor is 0,
otherwise the quotient. -/
def qdiv (a b : ℚ) : Option ℚ :=
  if b = 0 then none else some (a / b)

/-- Division-instrumented clamped variance of `RowwiseMomentsCUDAKernel`:
the `m2 / static_cast(N)` division with its divisor checked. -/
def rowVarChecked (N : ℕ) (X : ℕ → ℚ) (i : ℕ) : Option ℚ :=
  (qdiv (rowM2 N X i) (N : ℚ)).map fun v => max v 0

/-- Division-instrumented `s = T_ACC(1) / static_cast(N)` of
`ComputeGradientFusedParamsCUDAKernel`. -/
def fusedSChecked (N : ℕ) : Option ℚ :=
  qdiv 1 (N : ℚ)

/-! ### Row permutation -/

/-- Row-permuted view of a flat `(M, N)` buffer: row `i` of the result is
row `p i` of `X`. -/
def permuteRows (N : ℕ) (p : ℕ → ℕ) (X : ℕ → ℚ) : ℕ → ℚ :=
  fun t => X (p (t / N) * N + t % N)

/-- The composed forward output `Y[i, j]` of the two-kernel forward pass:
the forward kernel applied to the `mean`/`rstd` buffers produced by the
moment kernel on the same `X`. -/
noncomputable def forwardYAt (N : ℕ) (eps : ℚ) (X : ℕ → ℚ)
    (gamma beta : Option (ℕ → ℚ)) (i j : ℕ) : ℝ :=
  ((X (i * N + j) - rowMean N X i : ℚ) : ℝ) * rowRstd N eps X i *
    ((scaleAt gamma j : ℚ) : ℝ) + ((shiftAt beta j : ℚ) : ℝ)

/-! ### Lemmas -/

lemma sqDevSum_eval (xs : List ℚ) (c : ℚ) :
    sqDevSum xs c =
      (xs.map fun y => y ^ 2).sum - 2 * c * xs.sum + (xs.length : ℚ) * c ^ 2 := by
  induction xs with
  | nil => simp [sqDevSum]
  | cons x xs ih =>
    simp only [sqDevSum, List.map_cons, List.sum_cons, List.length_cons] at *
    push_cast
    rw [ih]
    ring

lemma welfordFold_append (xs : List ℚ) (x : ℚ) :
    welfordFold (xs ++ [x]) = welfordStep (welfordFold xs) x := by
  simp [welfordFold, List.foldl_append]

lemma welfordFold_m0_aux (xs : List ℚ) (s : Moments) :
    (xs.foldl welfordStep s).m0 = s.m0 + xs.length := by
  induction xs generalizing s with
  | nil => simp
  | cons x xs ih => simp [welfordStep, ih, Nat.add_assoc, Nat.add_comm 1]

lemma welfordFold_m0 (xs : List ℚ) : (welfordFold xs).m0 = xs.length := by
  simp [welfordFold, welfordFold_m0_aux]

/-- Exact-arithmetic correctness of the streaming fold: on a nonempty list
it computes the arithmetic mean and the sum of squared deviations from
that mean. -/
lemma welfordFold_spec (xs : List ℚ) (h : xs ≠ []) :
    (welfordFold xs).m1 = xs.sum / (xs.length : ℚ) ∧
      (welfordFold xs).m2 = sqDevSum xs (xs.sum / (xs.length : ℚ)) := by
  induction xs using List.reverseRecOn with
  | nil => exact absurd rfl h
  | append_singleton ys y ih =>
    rcases eq_or_ne ys [] with hys | hys
    · subst hys
      constructor
      · simp [welfordFold, welfordStep]
      · simp [welfordFold, welfordStep, sqDevSum]
    · obtain ⟨ih1, ih2⟩ := ih hys
      have hpos : 0 < ys.length := List.length_pos.mpr hys
      have hn' : ((ys.length : ℚ)) ≠ 0 := Nat.cast_ne_zero.mpr (by omega)
      have hn1 : ((ys.length : ℚ)) + 1 ≠ 0 := by positivity
      have hm2' : (welfordFold ys).m2 =
          (ys.map fun y => y ^ 2).sum - 2 * (ys.sum / (ys.length : ℚ)) * ys.sum
            + (ys.length : ℚ) * (ys.sum / (ys.length : ℚ)) ^ 2 := by
        rw [ih2, sqDevSum_eval]
      rw [welfordFold_append]
      simp only [welfordStep, welfordFold_m0, ih1, hm2']
      rw [sqDevSum_eval]
      constructor
      · simp only [List.sum_append, List.length_append, List.sum_cons, List.sum_nil,
          List.length_cons, List.length_nil]
        push_cast
        field_simp
        ring
      · simp only [List.map_append, List.sum_append, List.map_cons, List.map_nil,
          List.sum_cons, List.sum_nil, List.length_append, List.length_cons,
          List.length_nil]
        push_cast
        field_simp
        ring

lemma list_range_map_sum (N : ℕ) (f : ℕ → ℚ) :
    ((List.range N).map f).sum = ∑ j ∈ Finset.range N, f j := by
  induction N with
  | zero => simp
  | succ n ih => rw [List.range_succ, Finset.sum_range_succ]; simp [ih]

lemma rowVals_length (N : ℕ) (X : ℕ → ℚ) (i : ℕ) : (rowVals N X i).length = N := by
  simp [rowVals]

lemma rowVals_sum (N : ℕ) (X : ℕ → ℚ) (i : ℕ) :
    (rowVals N X i).sum = ∑ j ∈ Finset.range N, X (i * N + j) := by
  simp [rowVals, list_range_map_sum]

lemma rowVals_sqDevSum (N : ℕ) (X : ℕ → ℚ) (i : ℕ) (c : ℚ) :
    sqDevSum (rowVals N X i) c = ∑ j ∈ Finset.range N, (X (i * N + j) - c) ^ 2 := by
  simp only [sqDevSum, rowVals, List.map_map]
  exact list_range_map_sum N _

lemma rowMean_eq (N : ℕ) (X : ℕ → ℚ) (i : ℕ) (hN : 1 ≤ N) :
    rowMean N X i = (∑ j ∈ Finset.range N, X (i * N + j)) / (N : ℚ) := by
  have hne : rowVals N X i ≠ [] := by
    intro hcon
    have := rowVals_length N X i
    rw [hcon] at this
    simp at this
    omega
  have := (welfordFold_spec _ hne).1
  rw [rowMean, this, rowVals_sum, rowVals_length]

lemma rowM2_eq (N : ℕ) (X : ℕ → ℚ) (i : ℕ) (hN : 1 ≤ N) :
    rowM2 N X i =
      ∑ j ∈ Finset.range N,
        (X (i * N + j) - (∑ k ∈ Finset.range N, X (i * N + k)) / (N : ℚ)) ^ 2 := by
  have hne : rowVals N X i ≠ [] := by
    intro hcon
    have := rowVals_length N X i
    rw [hcon] at this
    simp at this
    omega
  have := (welfordFold_spec _ hne).2
  rw [rowM2, this, rowVals_sqDevSum, rowVals_sum, rowVals_length]

lemma rowcol_div (i j N : ℕ) (h : j < N) : (i * N + j) / N = i := by
  have hN : 0 < N := by omega
  rw [Nat.mul_comm i N, Nat.mul_add_div hN, Nat.div_eq_of_lt h]
  omega

lemma rowcol_mod (i j N : ℕ) (h : j < N) : (i * N + j) % N = j := by
  rw [Nat.mul_comm i N, Nat.mul_add_mod, Nat.mod_eq_of_lt h]

lemma rowcol_lt (i j M N : ℕ) (hi : i < M) (hj : j < N) : i * N + j < M * N := by
  calc i * N + j < i * N + N := by omega
    _ = (i + 1) * N := by ring
    _ ≤ M * N := Nat.mul_le_mul_right N hi

lemma foldl_pair_sum (f g : ℕ → ℚ) (xs : List ℕ) (a b : ℚ) :
    xs.foldl (fun s j => (s.1 + f j, s.2 + g j)) (a, b) =
      (a + (xs.map f).sum, b + (xs.map g).sum) := by
  induction xs generalizing a b with
  | nil => simp
  | cons x xs ih => simp [ih, add_assoc]

lemma internalGradsLoop_eq (N : ℕ) (dY X : ℕ → ℚ) (gamma : Option (ℕ → ℚ))
    (i : ℕ) :
    internalGradsLoop N dY X gamma i =
      (∑ j ∈ Finset.range N, dY (i * N + j) * X (i * N + j) * scaleAt gamma j,
       ∑ j ∈ Finset.range N, dY (i * N + j) * scaleAt gamma j) := by
  rw [internalGradsLoop, foldl_pair_sum, list_range_map_sum, list_range_map_sum]
  simp

/-! ### Reduction lemmas for the two parameter-gradient paths -/

lemma gammaBetaSimpleLoop_eq (M N : ℕ) (dY X mean rstd : ℕ → ℚ)
    (wantDg wantDb : Bool) (j : ℕ) :
    gammaBetaSimpleLoop M N dY X mean rstd wantDg wantDb j =
      (∑ i ∈ Finset.range M, (if wantDg = true then
          dY (i * N + j) * (X (i * N + j) - mean i) * rstd i else 0),
       ∑ i ∈ Finset.range M, (if wantDb = true then dY (i * N + j) else 0)) := by
  rw [gammaBetaSimpleLoop, foldl_pair_sum, list_range_map_sum, list_range_map_sum]
  simp

lemma foldl_tileAcc (f1 f2 f3 f4 : ℕ → ℚ) (xs : List ℕ) (t : TileAcc) :
    xs.foldl (fun t k => ⟨t.dg1 + f1 k, t.dg2 + f2 k, t.db1 + f3 k,
        t.db2 + f4 k⟩) t =
      ⟨t.dg1 + (xs.map f1).sum, t.dg2 + (xs.map f2).sum,
       t.db1 + (xs.map f3).sum, t.db2 + (xs.map f4).sum⟩ := by
  induction xs generalizing t with
  | nil => simp
  | cons x xs ih => simp [ih, add_assoc]

lemma sum_ite_guard (n m : ℕ) (hmn : m ≤ n) (f : ℕ → ℚ) :
    (∑ k ∈ Finset.range n, if k < m then f k else 0) =
      ∑ k ∈ Finset.range m, f k := by
  rw [← Finset.sum_subset (Finset.range_subset.mpr hmn)
    (fun k _ hk => if_neg (by simpa using hk))]
  exact Finset.sum_congr rfl fun k hk => if_pos (Finset.mem_range.mp hk)

lemma stripeIters_le (s M : ℕ) : stripeIters (s + 16) M ≤ stripeIters s M := by
  unfold stripeIters
  omega

lemma stripeIters_guard (s M k : ℕ) :
    (s + 16 + 32 * k < M) ↔ k < stripeIters (s + 16) M := by
  unfold stripeIters
  omega

lemma tiledLaneLoop_eq (M N : ℕ) (dY X mean rstd : ℕ → ℚ)
    (wantDg wantDb : Bool) (j s : ℕ) :
    tiledLaneLoop M N dY X mean rstd wantDg wantDb j s =
      ⟨∑ k ∈ Finset.range (stripeIters s M), (if wantDg = true then
          dY ((s + 32 * k) * N + j) * (X ((s + 32 * k) * N + j) -
            mean (s + 32 * k)) * rstd (s + 32 * k) else 0),
       ∑ k ∈ Finset.range (stripeIters (s + 16) M), (if wantDg = true then
          dY ((s + 16 + 32 * k) * N + j) * (X ((s + 16 + 32 * k) * N + j) -
            mean (s + 16 + 32 * k)) * rstd (s + 16 + 32 * k) else 0),
       ∑ k ∈ Finset.range (stripeIters s M), (if wantDb = true then
          dY ((s + 32 * k) * N + j) else 0),
       ∑ k ∈ Finset.range (stripeIters (s + 16) M), (if wantDb = true then
          dY ((s + 16 + 32 * k) * N + j) else 0)⟩ := by
  rw [tiledLaneLoop, foldl_tileAcc]
  have hguard : ∀ g : ℕ → ℚ,
      ((List.range (stripeIters s M)).map
        (fun k => if s + 16 + 32 * k < M then g k else 0)).sum =
        ∑ k ∈ Finset.range (stripeIters (s + 16) M), g k := by
    intro g
    rw [list_range_map_sum]
    calc (∑ k ∈ Finset.range (stripeIters s M),
            if s + 16 + 32 * k < M then g k else 0)
        = ∑ k ∈ Finset.range (stripeIters s M),
            if k < stripeIters (s + 16) M then g k else 0 :=
          Finset.sum_congr rfl fun k _ => by
            simp only [stripeIters_guard]
      _ = ∑ k ∈ Finset.range (stripeIters (s + 16) M), g k :=
          sum_ite_guard _ _ (stripeIters_le s M) g
  rw [hguard, hguard, list_range_map_sum, list_range_map_sum]
  simp

lemma stripeIters_zero (s : ℕ) : stripeIters s 0 = 0 := by
  unfold stripeIters
  omega

lemma stripeIters_succ (s M : ℕ) (hs : s < 32) :
    stripeIters s (M + 1) = stripeIters s M + (if s = M % 32 then 1 else 0) := by
  unfold stripeIters
  by_cases h : s = M % 32 <;> simp [h] <;> omega

/-- The 32 interleaved row stripes of the tiled kernel partition the rows:
summing each stripe and then summing the stripes is the plain row sum. -/
lemma stripe_partition (M : ℕ) (f : ℕ → ℚ) :
    (∑ s ∈ Finset.range 32, ∑ k ∈ Finset.range (stripeIters s M),
        f (s + 32 * k)) = ∑ i ∈ Finset.range M, f i := by
  induction M with
  | zero =>
    refine Finset.sum_eq_zero fun s _ => ?_
    simp [stripeIters_zero]
  | succ M ih =>
    have hstep : ∀ s ∈ Finset.range 32,
        (∑ k ∈ Finset.range (stripeIters s (M + 1)), f (s + 32 * k)) =
          (∑ k ∈ Finset.range (stripeIters s M), f (s + 32 * k)) +
            (if s = M % 32 then f M else 0) := by
      intro s hs
      have hs' : s < 32 := Finset.mem_range.mp hs
      rw [stripeIters_succ s M hs']
      by_cases h : s = M % 32
      · have harg : s + 32 * stripeIters s M = M := by
          unfold stripeIters
          omega
        rw [if_pos h, if_pos h, Finset.sum_range_succ, harg]
      · rw [if_neg h, if_neg h, Nat.add_zero, add_zero]
    rw [Finset.sum_congr rfl hstep, Finset.sum_add_distrib, ih,
      Finset.sum_ite_eq' (Finset.range 32) (M % 32) (fun _ => f M),
      if_pos (Finset.mem_range.mpr (Nat.mod_lt M (by omega))),
      Finset.sum_range_succ]

/-- Each component of the tiled column reduction equals the full row sum of
its (possibly absence-zeroed) contribution. -/
lemma tiledColSums_eq (M N : ℕ) (dY X mean rstd : ℕ → ℚ)
    (wantDg wantDb : Bool) (j : ℕ) :
    tiledColSums M N dY X mean rstd wantDg wantDb j =
      (∑ i ∈ Finset.range M, (if wantDg = true then
          dY (i * N + j) * (X (i * N + j) - mean i) * rstd i else 0),
       ∑ i ∈ Finset.range M, (if wantDb = true then dY (i * N + j) else 0)) := by
  have key : ∀ g : ℕ → ℚ,
      ((∑ s ∈ Finset.range 16,
          ∑ k ∈ Finset.range (stripeIters s M), g (s + 32 * k)) +
        ∑ s ∈ Finset.range 16,
          ∑ k ∈ Finset.range (stripeIters (s + 16) M), g (s + 16 + 32 * k)) =
        ∑ i ∈ Finset.range M, g i := by
    intro g
    rw [← stripe_partition M g]
    have h32 : (32 : ℕ) = 16 + 16 := rfl
    rw [h32, Finset.sum_range_add]
    congr 1
  unfold tiledColSums
  simp only [tiledLaneLoop_eq]
  exact Prod.ext
    (key fun i => if wantDg = true then
      dY (i * N + j) * (X (i * N + j) - mean i) * rstd i else 0)
    (key fun i => if wantDb = true then dY (i * N + j) else 0)

lemma fwd_ok_iff (X : List ℚ) (gamma beta : Option (List ℚ)) (M N : ℕ)
    (eps : ℚ) (Y0 : ℕ → ℝ) (mean0 : ℕ → ℚ) (rstd0 : ℕ → ℝ) :
    (LayerNormKernelImplInternal X gamma beta M N eps Y0 mean0 rstd0).ok = true ↔
      (X.length = M * N ∧ optLenOk gamma N = true ∧ optLenOk beta N = true) := by
  unfold LayerNormKernelImplInternal
  split_ifs with h1 h2 h3 h4 <;> simp_all

lemma fwd_fail (X : List ℚ) (gamma beta : Option (List ℚ)) (M N : ℕ)
    (eps : ℚ) (Y0 : ℕ → ℝ) (mean0 : ℕ → ℚ) (rstd0 : ℕ → ℝ)
    (h : ¬(X.length = M * N ∧ optLenOk gamma N = true ∧ optLenOk beta N = true)) :
    LayerNormKernelImplInternal X gamma beta M N eps Y0 mean0 rstd0 =
      ⟨false, Y0, mean0, rstd0⟩ := by
  unfold LayerNormKernelImplInternal
  split_ifs with h1 h2 h3 h4 <;> simp_all

lemma fwd_noop (X : List ℚ) (gamma beta : Option (List ℚ)) (N : ℕ)
    (eps : ℚ) (Y0 : ℕ → ℝ) (mean0 : ℕ → ℚ) (rstd0 : ℕ → ℝ)
    (h : X.length = 0 * N ∧ optLenOk gamma N = true ∧ optLenOk beta N = true) :
    LayerNormKernelImplInternal X gamma beta 0 N eps Y0 mean0 rstd0 =
      ⟨true, Y0, mean0, rstd0⟩ := by
  unfold LayerNormKernelImplInternal
  split_ifs with h1 h2 h3 <;> simp_all

lemma bwd_ok_iff (dY X mean rstd : List ℚ) (gamma : Option (List ℚ)) (M N : ℕ)
    (wantDX wantDg wantDb : Bool) (dX0 dg0 db0 : ℕ → ℚ) :
    (LayerNormBackwardKernelImplInternal dY X mean rstd gamma M N
        wantDX wantDg wantDb dX0 dg0 db0).ok = true ↔
      (dY.length = M * N ∧ X.length = M * N ∧ mean.length = M ∧
        rstd.length = M ∧ optLenOk gamma N = true) := by
  unfold LayerNormBackwardKernelImplInternal
  split_ifs with h1 h2 h3 h4 h5 h6 <;> simp_all

lemma bwd_fail (dY X mean rstd : List ℚ) (gamma : Option (List ℚ)) (M N : ℕ)
    (wantDX wantDg wantDb : Bool) (dX0 dg0 db0 : ℕ → ℚ)
    (h : ¬(dY.length = M * N ∧ X.length = M * N ∧ mean.length = M ∧
      rstd.length = M ∧ optLenOk gamma N = true)) :
    LayerNormBackwardKernelImplInternal dY X mean rstd gamma M N
        wantDX wantDg wantDb dX0 dg0 db0 = ⟨false, dX0, dg0, db0⟩ := by
  unfold LayerNormBackwardKernelImplInternal
  split_ifs with h1 h2 h3 h4 h5 h6 <;> simp_all

lemma bwd_noop (dY X mean rstd : List ℚ) (gamma : Option (List ℚ)) (N : ℕ)
    (wantDX wantDg wantDb : Bool) (dX0 dg0 db0 : ℕ → ℚ)
    (h : dY.length = 0 * N ∧ X.length = 0 * N ∧ mean.length = 0 ∧
      rstd.length = 0 ∧ optLenOk gamma N = true) :
    LayerNormBackwardKernelImplInternal dY X mean rstd gamma 0 N
        wantDX wantDg wantDb dX0 dg0 db0 = ⟨true, dX0, dg0, db0⟩ := by
  unfold LayerNormBackwardKernelImplInternal
  split_ifs with h1 h2 h3 h4 h5 <;> simp_all

lemma simple_eq_tiled (M N : ℕ) (dY X mean rstd : ℕ → ℚ)
    (wantDg wantDb : Bool) (dg0 db0 : ℕ → ℚ) :
    GammaBetaBackwardSimpleCUDAKernel M N dY X mean rstd wantDg wantDb dg0 db0 =
      GammaBetaBackwardCUDAKernel M N dY X mean rstd wantDg wantDb dg0 db0 := by
  simp only [GammaBetaBackwardSimpleCUDAKernel, GammaBetaBackwardCUDAKernel,
    gammaBetaSimpleLoop_eq, tiledColSums_eq]

lemma dispatch_fst (M N : ℕ) (dY X mean rstd : ℕ → ℚ) (wantDg wantDb : Bool)
    (dg0 db0 : ℕ → ℚ) (j : ℕ) (hj : j < N) :
    (gammaBetaBackwardDispatch M N dY X mean rstd wantDg wantDb dg0 db0).1 j =
      if wantDg = true then
        ∑ i ∈ Finset.range M, dY (i * N + j) * (X (i * N + j) - mean i) * rstd i
      else dg0 j := by
  unfold gammaBetaBackwardDispatch GammaBetaBackwardSimpleCUDAKernel
    GammaBetaBackwardCUDAKernel
  by_cases hM : M < 512 <;> by_cases hdg : wantDg = true <;>
    simp [hM, hdg, hj, gammaBetaSimpleLoop_eq, tiledColSums_eq]

lemma dispatch_snd (M N : ℕ) (dY X mean rstd : ℕ → ℚ) (wantDg wantDb : Bool)
    (dg0 db0 : ℕ → ℚ) (j : ℕ) (hj : j < N) :
    (gammaBetaBackwardDispatch M N dY X mean rstd wantDg wantDb dg0 db0).2 j =
      if wantDb = true then
        ∑ i ∈ Finset.range M, dY (i * N + j)
      else db0 j := by
  unfold gammaBetaBackwardDispatch GammaBetaBackwardSimpleCUDAKernel
    GammaBetaBackwardCUDAKernel
  by_cases hM : M < 512 <;> by_cases hdb : wantDb = true <;>
    simp [hM, hdb, hj, gammaBetaSimpleLoop_eq, tiledColSums_eq]

lemma bwd_success (dY X mean rstd : List ℚ) (gamma : Option (List ℚ))
    (M N : ℕ) (wantDX wantDg wantDb : Bool) (dX0 dg0 db0 : ℕ → ℚ)
    (h1 : dY.length = M * N) (h2 : X.length = M * N) (h3 : mean.length = M)
    (h4 : rstd.length = M) (h5 : optLenOk gamma N = true) (hM : M ≠ 0) :
    LayerNormBackwardKernelImplInternal dY X mean rstd gamma M N
        wantDX wantDg wantDb dX0 dg0 db0 =
      ⟨true,
       if wantDX = true then
         backwardDXChain M N (bufAt dY) (bufAt X) (bufAt mean) (bufAt rstd)
           (gamma.map bufAt) dX0
       else dX0,
       (if wantDg = true ∨ wantDb = true then
         gammaBetaBackwardDispatch M N (bufAt dY) (bufAt X) (bufAt mean)
           (bufAt rstd) wantDg wantDb dg0 db0
       else (dg0, db0)).1,
       (if wantDg = true ∨ wantDb = true then
         gammaBetaBackwardDispatch M N (bufAt dY) (bufAt X) (bufAt mean)
           (bufAt rstd) wantDg wantDb dg0 db0
       else (dg0, db0)).2⟩ := by
  unfold LayerNormBackwardKernelImplInternal
  rw [if_neg (by omega), if_neg (by omega), if_neg (by omega),
    if_neg (by omega), if_neg (by simp [h5]), if_neg hM]

lemma permuteRows_at (N : ℕ) (p : ℕ → ℕ) (X : ℕ → ℚ) (i j : ℕ) (hj : j < N) :
    permuteRows N p X (i * N + j) = X (p i * N + j) := by
  unfold permuteRows
  rw [rowcol_div i j N hj, rowcol_mod i j N hj]

lemma rowVals_permuteRows (N : ℕ) (p : ℕ → ℕ) (X : ℕ → ℚ) (i : ℕ) :
    rowVals N (permuteRows N p X) i = rowVals N X (p i) := by
  unfold rowVals
  exact List.map_congr_left fun j hj =>
    permuteRows_at N p X i j (List.mem_range.mp hj)

lemma rowMean_permuteRows (N : ℕ) (p : ℕ → ℕ) (X : ℕ → ℚ) (i : ℕ) :
    rowMean N (permuteRows N p X) i = rowMean N X (p i) := by
  rw [rowMean, rowMean, rowVals_permuteRows]

lemma rowRstd_permuteRows (N : ℕ) (eps : ℚ) (p : ℕ → ℕ) (X : ℕ → ℚ) (i : ℕ) :
    rowRstd N eps (permuteRows N p X) i = rowRstd N eps X (p i) := by
  rw [rowRstd, rowRstd, rowVar, rowVar, rowM2, rowM2, rowVals_permuteRows]

lemma internalGradsLoop_permuteRows (N : ℕ) (p : ℕ → ℕ) (dY X : ℕ → ℚ)
    (gamma : Option (ℕ → ℚ)) (i : ℕ) :
    internalGradsLoop N (permuteRows N p dY) (permuteRows N p X) gamma i =
      internalGradsLoop N dY X gamma (p i) := by
  rw [internalGradsLoop_eq, internalGradsLoop_eq]
  refine Prod.ext ?_ ?_ <;> dsimp only
  · exact Finset.sum_congr rfl fun k hk => by
      rw [permuteRows_at N p dY i k (Finset.mem_range.mp hk),
        permuteRows_at N p X i k (Finset.mem_range.mp hk)]
  · exact Finset.sum_congr rfl fun k hk => by
      rw [permuteRows_at N p dY i k (Finset.mem_range.mp hk)]

lemma sum_perm (M : ℕ) (p q : ℕ → ℕ) (hp : ∀ r, r < M → p r < M)
    (hq : ∀ r, r < M → q r < M) (hqp : ∀ r, r < M → q (p r) = r)
    (hpq : ∀ r, r < M → p (q r) = r) (G : ℕ → ℚ) :
    ∑ r ∈ Finset.range M, G (p r) = ∑ r ∈ Finset.range M, G r :=
  Finset.sum_nbij' p q
    (fun a ha => Finset.mem_range.mpr (hp a (Finset.mem_range.mp ha)))
    (fun a ha => Finset.mem_range.mpr (hq a (Finset.mem_range.mp ha)))
    (fun a ha => hqp a (Finset.mem_range.mp ha))
    (fun a ha => hpq a (Finset.mem_range.mp ha))
    (fun _ _ => rfl)

/-! ### Claim theorems -/

/-- C6: the forward entry point fails exactly when `X.count ≠ M*N`, or
`scale` is present with count `≠ N`, or `shift` is present with count
`≠ N`; the backward entry point fails exactly when its input sizes violate
`dY.count = M*N`, `X.count = M*N`, `mean.count = M`, `rstd.count = M`, or
`scale` present with count `≠ N` (backward takes no shift).  All checks run
before any computation, so a failed call leaves every output buffer at its
initial contents; and a call with `M = 0` that passes the checks returns
immediately as a no-op, writing no output buffer and raising no error. -/
theorem entry_point_checks (X dY meanl rstdl : List ℚ)
    (gamma beta : Option (List ℚ)) (M N : ℕ) (eps : ℚ)
    (Y0 : ℕ → ℝ) (mean0 : ℕ → ℚ) (rstd0 : ℕ → ℝ) (dX0 dg0 db0 : ℕ → ℚ)
    (wantDX wantDg wantDb : Bool) :
    ((LayerNormKernelImplInternal X gamma beta M N eps Y0 mean0 rstd0).ok = false ↔
      ¬(X.length = M * N ∧ optLenOk gamma N = true ∧ optLenOk beta N = true)) ∧
    (¬(X.length = M * N ∧ optLenOk gamma N = true ∧ optLenOk beta N = true) →
      LayerNormKernelImplInternal X gamma beta M N eps Y0 mean0 rstd0 =
        ⟨false, Y0, mean0, rstd0⟩) ∧
    (M = 0 →
      (X.length = M * N ∧ optLenOk gamma N = true ∧ optLenOk beta N = true) →
      LayerNormKernelImplInternal X gamma beta M N eps Y0 mean0 rstd0 =
        ⟨true, Y0, mean0, rstd0⟩) ∧
    ((LayerNormBackwardKernelImplInternal dY X meanl rstdl gamma M N
        wantDX wantDg wantDb dX0 dg0 db0).ok = false ↔
      ¬(dY.length = M * N ∧ X.length = M * N ∧ meanl.length = M ∧
        rstdl.length = M ∧ optLenOk gamma N = true)) ∧
    (¬(dY.length = M * N ∧ X.length = M * N ∧ meanl.length = M ∧
        rstdl.length = M ∧ optLenOk gamma N = true) →
      LayerNormBackwardKernelImplInternal dY X meanl rstdl gamma M N
        wantDX wantDg wantDb dX0 dg0 db0 = ⟨false, dX0, dg0, db0⟩) ∧
    (M = 0 →
      (dY.length = M * N ∧ X.length = M * N ∧ meanl.length = M ∧
        rstdl.length = M ∧ optLenOk gamma N = true) →
      LayerNormBackwardKernelImplInternal dY X meanl rstdl gamma M N
        wantDX wantDg wantDb dX0 dg0 db0 = ⟨true, dX0, dg0, db0⟩) := by
  refine ⟨?_, ?_, ?_, ?_, ?_, ?_⟩
  · rw [← fwd_ok_iff X gamma beta M N eps Y0 mean0 rstd0]
    simp
  · exact fwd_fail X gamma beta M N eps Y0 mean0 rstd0
  · rintro rfl h
    exact fwd_noop X gamma beta N eps Y0 mean0 rstd0 h
  · rw [← bwd_ok_iff dY X meanl rstdl gamma M N wantDX wantDg wantDb dX0 dg0 db0]
    simp
  · exact bwd_fail dY X meanl rstdl gamma M N wantDX wantDg wantDb dX0 dg0 db0
  · rintro rfl h
    exact bwd_noop dY X meanl rstdl gamma N wantDX wantDg wantDb dX0 dg0 db0 h

/-- Witness for `entry_point_checks` at concrete inputs. -/
theorem entry_point_checks_witness :
    LayerNormKernelImplInternal [] none none 0 3 (1 : ℚ)
        (fun _ => (0 : ℝ)) (fun _ => (0 : ℚ)) (fun _ => (0 : ℝ)) =
      ⟨true, fun _ => (0 : ℝ), fun _ => (0 : ℚ), fun _ => (0 : ℝ)⟩ :=
  (entry_point_checks [] [] [] [] none none 0 3 1
      (fun _ => (0 : ℝ)) (fun _ => (0 : ℚ)) (fun _ => (0 : ℝ))
      (fun _ => (0 : ℚ)) (fun _ => (0 : ℚ)) (fun _ => (0 : ℚ))
      true true true).2.2.1 rfl (by simp [optLenOk])

/-- C7: whenever `eps > 0`, the `rstd` written by the moment pass is
strictly positive, for every row, including a constant row of zero
variance, because the variance estimate is clamped to `max(·, 0)` before
`eps` is added. -/
theorem rstd_positive (N : ℕ) (eps : ℚ) (X : ℕ → ℚ) (i : ℕ)
    (heps : 0 < eps) : 0 < rowRstd N eps X i := by
  unfold rowRstd rsqrtQ
  have h1 : (0 : ℚ) ≤ rowVar N X i := le_max_right _ _
  have h2 : (0 : ℚ) < rowVar N X i + eps := by linarith
  have h3 : (0 : ℝ) < ((rowVar N X i + eps : ℚ) : ℝ) := by exact_mod_cast h2
  exact inv_pos.mpr (Real.sqrt_pos.mpr h3)

/-- Witness for `rstd_positive`: a constant row. -/
theorem rstd_positive_witness :
    (0 : ℚ) < 1 ∧ 0 < rowRstd 3 1 (fun _ => (5 : ℚ)) 0 :=
  ⟨by norm_num, rstd_positive 3 1 (fun _ => (5 : ℚ)) 0 (by norm_num)⟩

/-- C10: the `m2 / N` division of the moment pass and the `1 / N` of the
fused-coefficient pass carry no guard on `N`: with `N = 0` both divisions
take their error branch (`none` under division instrumentation), yet a
forward call with `M ≥ 1, N = 0` passes every entry check (an empty `X`
has `count = M * 0`) and runs the moment kernel on each row `i < M`; with
`N ≥ 1` the instrumented divisions succeed and agree with the uninstrumented
ones.  The spec's only exemption is `M = 0`. -/
theorem division_by_N_unguarded (M : ℕ) (hM : 1 ≤ M) (X : ℕ → ℚ) (i : ℕ)
    (hi : i < M) (eps : ℚ) (Y0 : ℕ → ℝ) (mean0 : ℕ → ℚ) (rstd0 : ℕ → ℝ)
    (N' : ℕ) (hN' : 1 ≤ N') :
    (LayerNormKernelImplInternal [] none none M 0 eps Y0 mean0 rstd0).ok = true ∧
    (LayerNormKernelImplInternal [] none none M 0 eps Y0 mean0 rstd0).mean i =
      rowMean 0 (bufAt []) i ∧
    (LayerNormKernelImplInternal [] none none M 0 eps Y0 mean0 rstd0).rstd i =
      rowRstd 0 eps (bufAt []) i ∧
    rowVarChecked 0 X i = none ∧
    fusedSChecked 0 = none ∧
    rowVarChecked N' X i = some (rowVar N' X i) ∧
    fusedSChecked N' = some (1 / (N' : ℚ)) := by
  have hMne : M ≠ 0 := by omega
  have hfwd : LayerNormKernelImplInternal [] none none M 0 eps Y0 mean0 rstd0 =
      ⟨true,
        fun t => if t < M * 0 then
          ((bufAt [] t - (if t / 0 < M then rowMean 0 (bufAt []) (t / 0)
              else mean0 (t / 0)) : ℚ) : ℝ) *
            (if t / 0 < M then rowRstd 0 eps (bufAt []) (t / 0)
              else rstd0 (t / 0)) *
            ((scaleAt ((none : Option (List ℚ)).map bufAt) (t % 0) : ℚ) : ℝ) +
            ((shiftAt ((none : Option (List ℚ)).map bufAt) (t % 0) : ℚ) : ℝ)
          else Y0 t,
        fun i => if i < M then rowMean 0 (bufAt []) i else mean0 i,
        fun i => if i < M then rowRstd 0 eps (bufAt []) i else rstd0 i⟩ := by
    unfold LayerNormKernelImplInternal
    rw [if_neg (by simp), if_neg (by simp [optLenOk]),
      if_neg (by simp [optLenOk]), if_neg hMne]
  have hN'q : ((N' : ℚ)) ≠ 0 := Nat.cast_ne_zero.mpr (by omega)
  refine ⟨by rw [hfwd], by rw [hfwd]; simp [hi], by rw [hfwd]; simp [hi],
    ?_, ?_, ?_, ?_⟩
  · simp [rowVarChecked, qdiv]
  · simp [fusedSChecked, qdiv]
  · simp [rowVarChecked, qdiv, hN'q, rowVar]
  · simp [fusedSChecked, qdiv, hN'q]

/-- Witness for `division_by_N_unguarded` at concrete inputs. -/
theorem division_by_N_unguarded_witness :
    (LayerNormKernelImplInternal [] none none 2 0 (1 : ℚ)
        (fun _ => (0 : ℝ)) (fun _ => (0 : ℚ)) (fun _ => (0 : ℝ))).ok = true ∧
    (LayerNormKernelImplInternal [] none none 2 0 (1 : ℚ)
        (fun _ => (0 : ℝ)) (fun _ => (0 : ℚ)) (fun _ => (0 : ℝ))).mean 0 =
      rowMean 0 (bufAt []) 0 ∧
    (LayerNormKernelImplInternal [] none none 2 0 (1 : ℚ)
        (fun _ => (0 : ℝ)) (fun _ => (0 : ℚ)) (fun _ => (0 : ℝ))).rstd 0 =
      rowRstd 0 1 (bufAt []) 0 ∧
    rowVarChecked 0 (fun _ => (7 : ℚ)) 0 = none ∧
    fusedSChecked 0 = none ∧
    rowVarChecked 4 (fun _ => (7 : ℚ)) 0 = some (rowVar 4 (fun _ => (7 : ℚ)) 0) ∧
    fusedSChecked 4 = some (1 / ((4 : ℕ) : ℚ)) :=
  division_by_N_unguarded 2 (by norm_num) (fun _ => (7 : ℚ)) 0 (by norm_num)
    1 (fun _ => (0 : ℝ)) (fun _ => (0 : ℚ)) (fun _ => (0 : ℝ)) 4 (by norm_num)

/-- C1: for every `i < M` and `j < N` the forward kernel writes
`Y[i,j] = (X[i,j] - mean[i]) * rstd[i] * scale[j] + shift[j]` (with the
identity substitutions `1`/`0` for an absent `scale`/`shift`), and the
value at `(i, j)` depends on no data of any other (row, column) pair:
any inputs agreeing at `X[i,j]`, `mean[i]`, `rstd[i]`, `scale[j]`,
`shift[j]` give the same `Y[i,j]`. -/
theorem forward_elementwise (M N : ℕ) (X mean rstd : ℕ → ℚ)
    (gamma beta : Option (ℕ → ℚ)) (Y0 : ℕ → ℚ) (i j : ℕ)
    (hi : i < M) (hj : j < N) :
    LayerNormForwardCUDAKernel M N X mean rstd gamma beta Y0 (i * N + j) =
      (X (i * N + j) - mean i) * rstd i * scaleAt gamma j + shiftAt beta j ∧
    (∀ (X' mean' rstd' : ℕ → ℚ) (gamma' beta' : Option (ℕ → ℚ)) (Y0' : ℕ → ℚ),
      X' (i * N + j) = X (i * N + j) → mean' i = mean i → rstd' i = rstd i →
      scaleAt gamma' j = scaleAt gamma j → shiftAt beta' j = shiftAt beta j →
      LayerNormForwardCUDAKernel M N X' mean' rstd' gamma' beta' Y0' (i * N + j) =
        LayerNormForwardCUDAKernel M N X mean rstd gamma beta Y0 (i * N + j)) := by
  have hlt := rowcol_lt i j M N hi hj
  have hdiv := rowcol_div i j N hj
  have hmod := rowcol_mod i j N hj
  constructor
  · unfold LayerNormForwardCUDAKernel
    rw [if_pos hlt, hdiv, hmod]
  · intro X' mean' rstd' gamma' beta' Y0' h1 h2 h3 h4 h5
    unfold LayerNormForwardCUDAKernel
    rw [if_pos hlt, if_pos hlt, hdiv, hmod, h1, h2, h3, h4, h5]

/-- Witness for `forward_elementwise` at concrete inputs. -/
theorem forward_elementwise_witness :
    1 < 2 ∧ 2 < 3 ∧
    LayerNormForwardCUDAKernel 2 3 (fun t => (t : ℚ)) (fun r => (r : ℚ))
        (fun _ => (2 : ℚ)) none none (fun _ => 0) (1 * 3 + 2) = 8 := by
  refine ⟨by norm_num, by norm_num, ?_⟩
  have h := (forward_elementwise 2 3 (fun t => (t : ℚ)) (fun r => (r : ℚ))
    (fun _ => (2 : ℚ)) none none (fun _ => 0) 1 2 (by norm_num) (by norm_num)).1
  rw [h]
  norm_num [scaleAt, shiftAt]

/-- C2: for every row, in exact arithmetic the streaming (Welford) fold of
the moment pass computes the arithmetic mean of the `N` row elements, and
the written `rstd` is `1 / sqrt(max(M2 / N, 0) + eps)` where `M2` is the
sum of squared deviations of the row from that mean. -/
theorem rowwise_moments_exact (N : ℕ) (eps : ℚ) (X : ℕ → ℚ) (i : ℕ)
    (hN : 1 ≤ N) :
    rowMean N X i = (∑ j ∈ Finset.range N, X (i * N + j)) / (N : ℚ) ∧
    rowRstd N eps X i =
      (Real.sqrt ((max ((∑ j ∈ Finset.range N,
          (X (i * N + j) - (∑ k ∈ Finset.range N, X (i * N + k)) / (N : ℚ)) ^ 2)
            / (N : ℚ)) 0 + eps : ℚ) : ℝ))⁻¹ := by
  refine ⟨rowMean_eq N X i hN, ?_⟩
  unfold rowRstd rsqrtQ rowVar
  rw [rowM2_eq N X i hN]

/-- Witness for `rowwise_moments_exact` at a concrete row. -/
theorem rowwise_moments_exact_witness :
    1 ≤ 2 ∧
    (rowMean 2 (fun t => (t : ℚ)) 0 =
        (∑ j ∈ Finset.range 2, ((j : ℚ) : ℚ)) / (2 : ℚ) ∧
      rowRstd 2 1 (fun t => (t : ℚ)) 0 =
        (Real.sqrt ((max ((∑ j ∈ Finset.range 2,
            (((j : ℕ) : ℚ) - (∑ k ∈ Finset.range 2, ((k : ℕ) : ℚ)) / (2 : ℚ)) ^ 2)
              / (2 : ℚ)) 0 + 1 : ℚ) : ℝ))⁻¹) := by
  refine ⟨by norm_num, ?_⟩
  have h := rowwise_moments_exact 2 1 (fun t => (t : ℚ)) 0 (by norm_num)
  simpa using h

/-- C4: for every row `i < M`, the backward stats pass writes
`ds[i] = Σ_j dY[i,j] * X[i,j] * scale[j]` and
`db[i] = Σ_j dY[i,j] * scale[j]` (with `scale[j]` replaced by `1` when the
scale buffer is absent), and no row outside `i < M` is written. -/
theorem backward_stats_sums (M N : ℕ) (dY X : ℕ → ℚ) (gamma : Option (ℕ → ℚ))
    (ds0 db0 : ℕ → ℚ) (i : ℕ) (hi : i < M) :
    ComputeInternalGradients_ds M N dY X gamma ds0 i =
      ∑ j ∈ Finset.range N, dY (i * N + j) * X (i * N + j) * scaleAt gamma j ∧
    ComputeInternalGradients_db M N dY X gamma db0 i =
      ∑ j ∈ Finset.range N, dY (i * N + j) * scaleAt gamma j ∧
    (ComputeInternalGradients_ds M N dY X none ds0 i =
      ∑ j ∈ Finset.range N, dY (i * N + j) * X (i * N + j) ∧
     ComputeInternalGradients_db M N dY X none db0 i =
      ∑ j ∈ Finset.range N, dY (i * N + j)) ∧
    (∀ k, ¬ k < M →
      ComputeInternalGradients_ds M N dY X gamma ds0 k = ds0 k ∧
      ComputeInternalGradients_db M N dY X gamma db0 k = db0 k) := by
  refine ⟨?_, ?_, ⟨?_, ?_⟩, ?_⟩
  · simp [ComputeInternalGradients_ds, hi, internalGradsLoop_eq]
  · simp [ComputeInternalGradients_db, hi, internalGradsLoop_eq]
  · simp [ComputeInternalGradients_ds, hi, internalGradsLoop_eq, scaleAt]
  · simp [ComputeInternalGradients_db, hi, internalGradsLoop_eq, scaleAt]
  · intro k hk
    constructor
    · simp [ComputeInternalGradients_ds, hk]
    · simp [ComputeInternalGradients_db, hk]

/-- Witness for `backward_stats_sums` at concrete inputs. -/
theorem backward_stats_sums_witness :
    0 < 1 ∧
    ComputeInternalGradients_ds 1 2 (fun _ => (1 : ℚ)) (fun t => (t : ℚ))
        none (fun _ => 0) 0 =
      ∑ j ∈ Finset.range 2, (1 : ℚ) * ((j : ℚ)) * scaleAt none j :=
  ⟨by norm_num,
    (backward_stats_sums 1 2 (fun _ => (1 : ℚ)) (fun t => (t : ℚ)) none
      (fun _ => 0) (fun _ => 0) 0 (by norm_num)).1⟩

/-- C3: for every backward call with `dX` requested and every `i < M`,
`j < N`: with `s = 1/N`, `a = (db[i]*mean[i] - ds[i]) * rstd[i]^3 * s`,
the fused coefficients are `c1[i] = a` and
`c2[i] = -(a*mean[i] + db[i]*rstd[i]*s)`, and the input gradient is
`dX[i,j] = rstd[i]*dY[i,j]*scale[j] + c1[i]*X[i,j] + c2[i]` (`scale[j]`
replaced by `1` when absent), where `ds`/`db` are the stats-pass sums. -/
theorem backward_dX_formula (M N : ℕ) (dY X mean rstd : ℕ → ℚ)
    (gamma : Option (ℕ → ℚ)) (dX0 : ℕ → ℚ) (i j : ℕ) (hi : i < M) (hj : j < N)
    (dsv dbv sv av c1v c2v : ℚ)
    (hds : dsv = ∑ k ∈ Finset.range N,
      dY (i * N + k) * X (i * N + k) * scaleAt gamma k)
    (hdb : dbv = ∑ k ∈ Finset.range N, dY (i * N + k) * scaleAt gamma k)
    (hs : sv = 1 / (N : ℚ))
    (ha : av = (dbv * mean i - dsv) * rstd i ^ 3 * sv)
    (hc1 : c1v = av)
    (hc2 : c2v = -(av * mean i + dbv * rstd i * sv)) :
    backwardDXChain M N dY X mean rstd gamma dX0 (i * N + j) =
      rstd i * dY (i * N + j) * scaleAt gamma j + c1v * X (i * N + j) + c2v := by
  subst hds hdb hs ha hc1 hc2
  have hlt := rowcol_lt i j M N hi hj
  have hdiv := rowcol_div i j N hj
  have hmod := rowcol_mod i j N hj
  simp only [backwardDXChain, LayerNormBackwardCUDAKenrel,
    ComputeGradientFusedParams_c1, ComputeGradientFusedParams_c2,
    ComputeInternalGradients_ds, ComputeInternalGradients_db, fusedParams,
    internalGradsLoop_eq, hlt, hdiv, hmod, hi, if_true, ite_true]
  ring

/-- Witness for `backward_dX_formula` at concrete inputs. -/
theorem backward_dX_formula_witness :
    0 < 1 ∧ 0 < 1 ∧
    backwardDXChain 1 1 (fun _ => (1 : ℚ)) (fun _ => (2 : ℚ))
        (fun _ => (3 : ℚ)) (fun _ => (5 : ℚ)) none (fun _ => 0) (0 * 1 + 0) =
      5 * 1 * scaleAt none 0 + 125 * 2 + -(125 * 3 + 1 * 5 * 1) := by
  refine ⟨by norm_num, by norm_num, ?_⟩
  have h := backward_dX_formula 1 1 (fun _ => (1 : ℚ)) (fun _ => (2 : ℚ))
    (fun _ => (3 : ℚ)) (fun _ => (5 : ℚ)) none (fun _ => 0) 0 0
    (by norm_num) (by norm_num) 2 1 1 125 125 (-(125 * 3 + 1 * 5 * 1))
    (by simp [scaleAt]) (by simp [scaleAt]) (by norm_num) (by norm_num)
    (by norm_num) (by norm_num)
  simpa using h

/-- C5: in exact arithmetic the simple serial per-column reduction and the
tiled transpose-based reduction produce identical `dScale` and `dShift`
buffers for every requested-output subset; the dispatcher selects the
simple path exactly when `M < 512` and the tiled path otherwise, and the
selection does not change the result: either way, a requested `dScale[j]`
equals `Σ_i dY[i,j] * (X[i,j] - mean[i]) * rstd[i]` and a requested
`dShift[j]` equals `Σ_i dY[i,j]`. -/
theorem param_grad_paths_equal (M N : ℕ) (dY X mean rstd : ℕ → ℚ)
    (wantDg wantDb : Bool) (dg0 db0 : ℕ → ℚ) (j : ℕ)
    (hM : 1 ≤ M) (hN : 1 ≤ N) (hj : j < N) :
    GammaBetaBackwardSimpleCUDAKernel M N dY X mean rstd wantDg wantDb dg0 db0 =
      GammaBetaBackwardCUDAKernel M N dY X mean rstd wantDg wantDb dg0 db0 ∧
    (M < 512 →
      gammaBetaBackwardDispatch M N dY X mean rstd wantDg wantDb dg0 db0 =
        GammaBetaBackwardSimpleCUDAKernel M N dY X mean rstd wantDg wantDb
          dg0 db0) ∧
    (¬ M < 512 →
      gammaBetaBackwardDispatch M N dY X mean rstd wantDg wantDb dg0 db0 =
        GammaBetaBackwardCUDAKernel M N dY X mean rstd wantDg wantDb dg0 db0) ∧
    (wantDg = true →
      (gammaBetaBackwardDispatch M N dY X mean rstd wantDg wantDb dg0 db0).1 j =
        ∑ i ∈ Finset.range M,
          dY (i * N + j) * (X (i * N + j) - mean i) * rstd i) ∧
    (wantDb = true →
      (gammaBetaBackwardDispatch M N dY X mean rstd wantDg wantDb dg0 db0).2 j =
        ∑ i ∈ Finset.range M, dY (i * N + j)) := by
  refine ⟨simple_eq_tiled M N dY X mean rstd wantDg wantDb dg0 db0,
    fun h => by unfold gammaBetaBackwardDispatch; rw [if_pos h],
    fun h => by unfold gammaBetaBackwardDispatch; rw [if_neg h],
    fun h => ?_, fun h => ?_⟩
  · rw [dispatch_fst M N dY X mean rstd wantDg wantDb dg0 db0 j hj, if_pos h]
  · rw [dispatch_snd M N dY X mean rstd wantDg wantDb dg0 db0 j hj, if_pos h]

/-- Witness for `param_grad_paths_equal` at concrete inputs. -/
theorem param_grad_paths_equal_witness :
    1 ≤ 1 ∧ 1 ≤ 2 ∧ 1 < 2 ∧
    (gammaBetaBackwardDispatch 1 2 (fun _ => (1 : ℚ)) (fun t => (t : ℚ))
        (fun _ => (0 : ℚ)) (fun _ => (1 : ℚ)) true true
        (fun _ => 0) (fun _ => 0)).2 1 =
      ∑ i ∈ Finset.range 1, (1 : ℚ) :=
  ⟨by norm_num, by norm_num, by norm_num,
    (param_grad_paths_equal 1 2 (fun _ => (1 : ℚ)) (fun t => (t : ℚ))
      (fun _ => (0 : ℚ)) (fun _ => (1 : ℚ)) true true (fun _ => 0) (fun _ => 0)
      1 (by norm_num) (by norm_num) (by norm_num)).2.2.2.2 rfl⟩

/-- C8: `dShift` does not read `mean` or `rstd`: the backward entry point
produces the same `dShift[j] = Σ_i dY[i,j]` for any two contents of the
`mean`/`rstd` buffers, and requesting only `dShift` yields the same value
as requesting `dX`, `dScale` and `dShift` together; at the kernel level
the dispatched reduction's `dShift` output is invariant under arbitrary
changes of `mean`, `rstd` and the `dScale`-request flag. -/
theorem dshift_independent (M N : ℕ) (dYl Xl meanl rstdl meanl' rstdl' : List ℚ)
    (gamma : Option (List ℚ)) (dX0 dX0' dg0 db0 : ℕ → ℚ) (j : ℕ)
    (hM : 1 ≤ M) (hj : j < N)
    (hdY : dYl.length = M * N) (hX : Xl.length = M * N)
    (hmean : meanl.length = M) (hrstd : rstdl.length = M)
    (hmean' : meanl'.length = M) (hrstd' : rstdl'.length = M)
    (hg : optLenOk gamma N = true) :
    (LayerNormBackwardKernelImplInternal dYl Xl meanl rstdl gamma M N
        true true true dX0 dg0 db0).dbeta j =
      (LayerNormBackwardKernelImplInternal dYl Xl meanl' rstdl' gamma M N
        false false true dX0' dg0 db0).dbeta j ∧
    (LayerNormBackwardKernelImplInternal dYl Xl meanl rstdl gamma M N
        true true true dX0 dg0 db0).dbeta j =
      ∑ i ∈ Finset.range M, bufAt dYl (i * N + j) ∧
    (∀ (mean1 rstd1 mean2 rstd2 : ℕ → ℚ) (wdg1 wdg2 : Bool),
      (gammaBetaBackwardDispatch M N (bufAt dYl) (bufAt Xl) mean1 rstd1
        wdg1 true dg0 db0).2 j =
      (gammaBetaBackwardDispatch M N (bufAt dYl) (bufAt Xl) mean2 rstd2
        wdg2 true dg0 db0).2 j) := by
  have hMne : M ≠ 0 := by omega
  have e1 := bwd_success dYl Xl meanl rstdl gamma M N true true true
    dX0 dg0 db0 hdY hX hmean hrstd hg hMne
  have e2 := bwd_success dYl Xl meanl' rstdl' gamma M N false false true
    dX0' dg0 db0 hdY hX hmean' hrstd' hg hMne
  refine ⟨?_, ?_, ?_⟩
  · rw [e1, e2]
    dsimp only
    rw [if_pos (Or.inl rfl), if_pos (Or.inr rfl)]
    rw [dispatch_snd M N (bufAt dYl) (bufAt Xl) (bufAt meanl) (bufAt rstdl)
        true true dg0 db0 j hj,
      dispatch_snd M N (bufAt dYl) (bufAt Xl) (bufAt meanl') (bufAt rstdl')
        false true dg0 db0 j hj]
  · rw [e1]
    dsimp only
    rw [if_pos (Or.inl rfl),
      dispatch_snd M N (bufAt dYl) (bufAt Xl) (bufAt meanl) (bufAt rstdl)
        true true dg0 db0 j hj, if_pos rfl]
  · intro mean1 rstd1 mean2 rstd2 wdg1 wdg2
    rw [dispatch_snd M N (bufAt dYl) (bufAt Xl) mean1 rstd1 wdg1 true
        dg0 db0 j hj,
      dispatch_snd M N (bufAt dYl) (bufAt Xl) mean2 rstd2 wdg2 true
        dg0 db0 j hj]

/-- Witness for `dshift_independent` at concrete inputs: garbage
`mean`/`rstd` in the second call. -/
theorem dshift_independent_witness :
    (LayerNormBackwardKernelImplInternal [1, 2] [3, 4] [0] [1] none 1 2
        true true true (fun _ => 0) (fun _ => 0) (fun _ => 0)).dbeta 1 =
      (LayerNormBackwardKernelImplInternal [1, 2] [3, 4] [99] [-7] none 1 2
        false false true (fun _ => 5) (fun _ => 0) (fun _ => 0)).dbeta 1 :=
  (dshift_independent 1 2 [1, 2] [3, 4] [0] [1] [99] [-7] none
    (fun _ => 0) (fun _ => 5) (fun _ => 0) (fun _ => 0) 1
    (by norm_num) (by norm_num) (by norm_num) (by norm_num) (by norm_num)
    (by norm_num) (by norm_num) (by norm_num) (by simp [optLenOk])).1

/-- C9: permuting the rows of the inputs by `p` (a bijection of the row
range with inverse `q`) permutes `mean`, `rstd`, `Y` and `dX` by `p` and
leaves `dScale` and `dShift` unchanged. -/
theorem row_permutation_equivariance (M N : ℕ) (eps : ℚ) (p q : ℕ → ℕ)
    (X dY mean rstd : ℕ → ℚ) (gamma beta : Option (ℕ → ℚ))
    (dX0 dg0 db0 : ℕ → ℚ) (wantDg wantDb : Bool) (i j : ℕ)
    (hp : ∀ r, r < M → p r < M) (hq : ∀ r, r < M → q r < M)
    (hqp : ∀ r, r < M → q (p r) = r) (hpq : ∀ r, r < M → p (q r) = r)
    (hi : i < M) (hj : j < N) :
    rowMean N (permuteRows N p X) i = rowMean N X (p i) ∧
    rowRstd N eps (permuteRows N p X) i = rowRstd N eps X (p i) ∧
    forwardYAt N eps (permuteRows N p X) gamma beta i j =
      forwardYAt N eps X gamma beta (p i) j ∧
    backwardDXChain M N (permuteRows N p dY) (permuteRows N p X)
        (fun r => mean (p r)) (fun r => rstd (p r)) gamma dX0 (i * N + j) =
      backwardDXChain M N dY X mean rstd gamma dX0 (p i * N + j) ∧
    (gammaBetaBackwardDispatch M N (permuteRows N p dY) (permuteRows N p X)
        (fun r => mean (p r)) (fun r => rstd (p r)) wantDg wantDb dg0 db0).1 j =
      (gammaBetaBackwardDispatch M N dY X mean rstd wantDg wantDb dg0 db0).1 j ∧
    (gammaBetaBackwardDispatch M N (permuteRows N p dY) (permuteRows N p X)
        (fun r => mean (p r)) (fun r => rstd (p r)) wantDg wantDb dg0 db0).2 j =
      (gammaBetaBackwardDispatch M N dY X mean rstd wantDg wantDb dg0 db0).2 j := by
  have hplt := hp i hi
  refine ⟨rowMean_permuteRows N p X i, rowRstd_permuteRows N eps p X i, ?_,
    ?_, ?_, ?_⟩
  · unfold forwardYAt
    rw [rowMean_permuteRows, rowRstd_permuteRows,
      permuteRows_at N p X i j hj]
  · simp only [backwardDXChain, LayerNormBackwardCUDAKenrel,
      ComputeGradientFusedParams_c1, ComputeGradientFusedParams_c2,
      ComputeInternalGradients_ds, ComputeInternalGradients_db, fusedParams,
      rowcol_lt i j M N hi hj, rowcol_lt (p i) j M N hplt hj,
      rowcol_div i j N hj, rowcol_mod i j N hj,
      rowcol_div (p i) j N hj, rowcol_mod (p i) j N hj,
      hi, hplt, if_true, ite_true,
      internalGradsLoop_permuteRows N p dY X gamma i,
      permuteRows_at N p dY i j hj, permuteRows_at N p X i j hj]
  · rw [dispatch_fst M N (permuteRows N p dY) (permuteRows N p X)
        (fun r => mean (p r)) (fun r => rstd (p r)) wantDg wantDb dg0 db0 j hj,
      dispatch_fst M N dY X mean rstd wantDg wantDb dg0 db0 j hj]
    by_cases hdg : wantDg = true
    · rw [if_pos hdg, if_pos hdg]
      have hcong : ∀ r ∈ Finset.range M,
          permuteRows N p dY (r * N + j) *
            (permuteRows N p X (r * N + j) - mean (p r)) * rstd (p r) =
          dY (p r * N + j) * (X (p r * N + j) - mean (p r)) * rstd (p r) :=
        fun r _ => by
          rw [permuteRows_at N p dY r j hj, permuteRows_at N p X r j hj]
      rw [Finset.sum_congr rfl hcong]
      exact sum_perm M p q hp hq hqp hpq
        (fun r => dY (r * N + j) * (X (r * N + j) - mean r) * rstd r)
    · rw [if_neg hdg, if_neg hdg]
  · rw [dispatch_snd M N (permuteRows N p dY) (permuteRows N p X)
        (fun r => mean (p r)) (fun r => rstd (p r)) wantDg wantDb dg0 db0 j hj,
      dispatch_snd M N dY X mean rstd wantDg wantDb dg0 db0 j hj]
    by_cases hdb : wantDb = true
    · rw [if_pos hdb, if_pos hdb]
      have hcong : ∀ r ∈ Finset.range M,
          permuteRows N p dY (r * N + j) = dY (p r * N + j) :=
        fun r _ => permuteRows_at N p dY r j hj
      rw [Finset.sum_congr rfl hcong]
      exact sum_perm M p q hp hq hqp hpq (fun r => dY (r * N + j))
    · rw [if_neg hdb, if_neg hdb]

/-- Witness for `row_permutation_equivariance`: the swap of two rows. -/
theorem row_permutation_equivariance_witness :
    rowMean 2 (permuteRows 2 (fun r => 1 - r) (fun t => (t : ℚ))) 0 =
      rowMean 2 (fun t => (t : ℚ)) ((fun r => 1 - r) 0) := by
  have h := row_permutation_equivariance 2 2 1 (fun r => 1 - r) (fun r => 1 - r)
    (fun t => (t : ℚ)) (fun t => (t : ℚ)) (fun _ => 0) (fun _ => 1) none none
    (fun _ => 0) (fun _ => 0) (fun _ => 0) true true 0 0
    (by decide) (by decide) (by decide) (by decide) (by norm_num) (by norm_num)
  exact h.1

end LayerNormCUDA
